import Mathlib

/-!
Verification of the citation reconciliation and temporal aggregation engine
of `update_publications_analytics.py`.

We shallowly embed the two core functions:

* `get_publications_citations` — the per-publication deduplication of the
  concatenated citation lists from the two providers (`openalex` =
  provider_a, `semanticscholar` = provider_b).  The Python dict
  `seen_dois` is modelled as an association list in insertion order; the
  in-place dict update and the list-based title-only dedup are modelled
  step for step.  The Python expression
  `cit.get('publication_date') < existing.get('publication_date')` raises
  `TypeError` when the existing record has no date, so the title-only pass
  is embedded in `Except Unit`.

* `filter_citations_by_date` — the per-cutoff aggregation over the
  snapshot mapping.  Dates are parsed with a model of
  `datetime.strptime(s, '%Y-%m-%d')` (and `'%Y'` when `s` has no dash),
  and compared lexicographically on (year, month, day), exactly as
  `datetime` comparison behaves for midnight timestamps.
-/

set_option autoImplicit false
set_option maxRecDepth 8000

namespace SuccessMetrics

/-- One citation record as produced by a source adapter:
`{title, doi, publication_date, source}` where `doi` and
`publication_date` may be `None` (here `none`). -/
structure Citation where
  title : String
  doi : Option String
  publication_date : Option String
  source : String
deriving DecidableEq, Repr

/-- Python truthiness of `cit.get('doi')`: `None` and `''` are falsy. -/
def doiTruthy : Option String → Bool
  | none => false
  | some s => s ≠ ""

/-- The guard `cit.get('doi') is None or cit.get('doi') == ''` of the
title-only dedup pass. -/
def doiMissing (c : Citation) : Bool :=
  match c.doi with
  | none => true
  | some s => s == ""

/-- `cit.get('title', '')[:50]`: the first 50 characters of the title. -/
def titleKey (c : Citation) : String :=
  c.title.take 50

/-- Python string `<`: lexicographic comparison by code point. -/
def charsLt : List Char → List Char → Bool
  | [], [] => false
  | [], _ :: _ => true
  | _ :: _, [] => false
  | a :: as, b :: bs =>
    if a < b then true
    else if a = b then charsLt as bs
    else false

/-- Python `s1 < s2` on strings. -/
def strLt (a b : String) : Bool :=
  charsLt a.data b.data

/-! ### The DOI-keyed dedup pass (`seen_dois`)

`seen_dois` is a Python dict from the raw citation DOI string to the
stored record; dicts preserve insertion order, and the update at line 253
mutates the stored record in place.  We model it as a `List (String ×
Citation)` where insertion appends and update rewrites the entry. -/

/-- In-place update of the entry stored under key `k` (Python
`seen_dois[cit_doi]['publication_date'] = ...`). -/
def updateKey (seen : List (String × Citation)) (k : String) (v : Citation) :
    List (String × Citation) :=
  seen.map (fun p => if p.1 == k then (p.1, v) else p)

/-- One iteration of the `for cit in all_citations` loop of the DOI-keyed
dedup (lines 236–254 of `update_publications_analytics.py`):
citations with a falsy DOI are skipped; a record is *inserted* only when
its key is new **and** its source is `'openalex'`; afterwards, if the key
is present, the stored date and source are overwritten when the incoming
record is an `'openalex'` record with a date and the stored record's
source is `'semanticscholar'`. -/
def doiStep (seen : List (String × Citation)) (cit : Citation) :
    List (String × Citation) :=
  match cit.doi with
  | none => seen
  | some d =>
    if d = "" then seen
    else
      let seen1 :=
        if (seen.lookup d).isNone then
          if cit.source = "openalex" then
            seen ++ [(d, ⟨cit.title, some d, cit.publication_date, cit.source⟩)]
          else seen
        else seen
      match seen1.lookup d with
      | none => seen1
      | some existing =>
        if cit.source = "openalex" ∧ existing.source = "semanticscholar" ∧
            cit.publication_date ≠ none ∧ existing.source = "semanticscholar" then
          updateKey seen1 d
            { existing with publication_date := cit.publication_date,
                            source := cit.source }
        else seen1

/-- The full DOI-keyed dedup: fold `doiStep` over the concatenated
citation list starting from the empty dict. -/
def dedupByDoi (cits : List Citation) : List (String × Citation) :=
  cits.foldl doiStep []

/-! ### The title-only dedup pass

Lines 260–273: DOI-less citations are deduplicated by 50-character title
key into `unique_title_only_citations`.  When the incoming record has a
date and the stored record for the key has `publication_date = None`, the
comparison `cit.get('publication_date') < existing.get('publication_date')`
raises `TypeError` in Python 3; we model this as `Except.error ()`. -/

/-- One iteration of the title-only dedup loop. -/
def titleStep (acc : List Citation) (cit : Citation) :
    Except Unit (List Citation) :=
  if doiMissing cit then
    let k := titleKey cit
    if k = "" then .ok acc
    else
      match acc.find? (fun e => titleKey e == k) with
      | none => .ok (acc ++ [cit])
      | some existing =>
        match cit.publication_date with
        | none => .ok acc
        | some d =>
          match existing.publication_date with
          | none => .error ()
          | some d' =>
            if strLt d d' then .ok ((acc.erase existing) ++ [cit])
            else .ok acc
  else .ok acc

/-- The full title-only dedup over the concatenated citation list. -/
def dedupTitleOnly (cits : List Citation) : Except Unit (List Citation) :=
  cits.foldlM titleStep []

/-- Line 275: append a title-only citation to `unique_citations` only when
its title key does not already occur among the (growing) list's title
keys. -/
def appendStep (uniq : List Citation) (cit : Citation) : List Citation :=
  if (uniq.map titleKey).contains (titleKey cit) then uniq
  else uniq ++ [cit]

/-- The per-publication merge of `get_publications_citations` applied to
one concatenated citation list (`all_citations`): DOI-keyed dedup, then
title-only dedup, then the guarded append.  `Except.error ()` models the
`TypeError` raised by the date comparison on a dateless stored record. -/
def mergeCitations (cits : List Citation) : Except Unit (List Citation) :=
  let uniq := (dedupByDoi cits).map Prod.snd
  match dedupTitleOnly cits with
  | .error e => .error e
  | .ok titleOnly => .ok (titleOnly.foldl appendStep uniq)

/-! ### Date parsing and comparison (`filter_citations_by_date`) -/

/-- A calendar date, the comparable content of the `datetime` values
produced by `strptime` (time components are all zero). -/
structure Date where
  y : Nat
  m : Nat
  d : Nat
deriving DecidableEq, Repr

/-- `datetime` comparison: lexicographic on (year, month, day). -/
def dateLe (a b : Date) : Bool :=
  decide (a.y < b.y ∨ (a.y = b.y ∧ (a.m < b.m ∨ (a.m = b.m ∧ a.d ≤ b.d))))

/-- A non-empty all-digit character group. -/
def isDigits (l : List Char) : Bool :=
  !l.isEmpty && l.all (·.isDigit)

/-- Numeric value of a digit group. -/
def digitsVal (l : List Char) : Nat :=
  l.foldl (fun acc c => acc * 10 + (c.toNat - 48)) 0

/-- Split a character list at every `'-'`, like Python `s.split('-')`. -/
def splitDash : List Char → List (List Char)
  | [] => [[]]
  | c :: rest =>
    let r := splitDash rest
    if c = '-' then [] :: r
    else
      match r with
      | [] => [[c]]
      | g :: gs => (c :: g) :: gs

/-- Day count of a month, Gregorian rules, as `datetime` validates. -/
def daysInMonth (y m : Nat) : Nat :=
  if m = 2 then
    if y % 4 = 0 ∧ (y % 100 ≠ 0 ∨ y % 400 = 0) then 29 else 28
  else if m = 4 ∨ m = 6 ∨ m = 9 ∨ m = 11 then 30
  else 31

/-- Model of `datetime.strptime(s, '%Y-%m-%d')`: three dash-separated
digit groups (year up to 4 digits, month and day up to 2), a real
calendar date with year ≥ 1. -/
def parseYMD (s : String) : Option Date :=
  match splitDash s.data with
  | [ys, ms, ds] =>
    if isDigits ys && ys.length ≤ 4 && isDigits ms && ms.length ≤ 2 &&
        isDigits ds && ds.length ≤ 2 then
      let y := digitsVal ys
      let m := digitsVal ms
      let d := digitsVal ds
      if 1 ≤ y && 1 ≤ m && m ≤ 12 && 1 ≤ d && d ≤ daysInMonth y m then
        some ⟨y, m, d⟩
      else none
    else none
  | _ => none

/-- Model of `datetime.strptime(s, '%Y')` followed by
`.replace(month=1, day=1)`: a bare year normalizes to January 1st. -/
def parseY (s : String) : Option Date :=
  if isDigits s.data && s.data.length ≤ 4 then
    let y := digitsVal s.data
    if 1 ≤ y then some ⟨y, 1, 1⟩ else none
  else none

/-- Lines 307–312: if the string contains a dash it must parse as
`YYYY-MM-DD`; otherwise as a bare year (so `YYYY-MM` fails and the
citation is skipped). `none` models the caught `ValueError`. -/
def parseDate (s : String) : Option Date :=
  if s.data.contains '-' then parseYMD s else parseY s

/-! ### The aggregation -/

/-- The `{'num_original_pubs': ..., 'num_citing_pubs': ...}` dict returned
by `filter_citations_by_date`. -/
structure AggregationResult where
  num_original_pubs : Nat
  num_citing_pubs : Nat
deriving DecidableEq, Repr

/-- The inner `for citation in citing_list` loop (lines 303–320): skip
citations with a falsy or unparseable date, and at the **first** citation
whose date is on or before the cutoff, contribute its DOI (when truthy)
to the citing-DOI set and `break`.  The returned list has at most one
element: the DOIs this publication contributes. -/
def pubCitingDois (cutoff : Date) : List Citation → List String
  | [] => []
  | c :: rest =>
    match c.publication_date with
    | none => pubCitingDois cutoff rest
    | some s =>
      if s = "" then pubCitingDois cutoff rest
      else
        match parseDate s with
        | none => pubCitingDois cutoff rest
        | some dt =>
          if dateLe dt cutoff then
            match c.doi with
            | some d => if d ≠ "" then [d] else []
            | none => []
          else pubCitingDois cutoff rest

/-- All DOIs added to `all_citing_dois` over the whole snapshot. -/
def allCitingDois (cutoff : Date) (snap : List (String × List Citation)) :
    List String :=
  snap.foldl (fun acc p => acc ++ pubCitingDois cutoff p.2) []

/-- `filter_citations_by_date` (lines 291–326): `num_original_pubs` is
`len(citations_output)` — the bookkeeping variable
`original_pubs_with_citations` is initialized but never incremented — and
`num_citing_pubs` is the cardinality of the set `all_citing_dois`. -/
def filterCitationsByDate (snap : List (String × List Citation))
    (cutoff : Date) : AggregationResult :=
  { num_original_pubs := snap.length
    num_citing_pubs := (allCitingDois cutoff snap).dedup.length }

/-! ### Spec-side definitions

These two definitions follow the specification's words (§4.3), to be
compared with `filterCitationsByDate`; they are *not* translations of the
code. -/

/-- Spec §4.3: a citation counts for a cutoff when its normalized
publication date is on or before the cutoff. -/
def citationQualifies (cutoff : Date) (c : Citation) : Bool :=
  match c.publication_date with
  | none => false
  | some s =>
    match parseDate s with
    | none => false
    | some dt => dateLe dt cutoff

/-- Spec §4.3: `num_original_pubs` = count of tracked publications with at
least one citation whose normalized date is ≤ cutoff. -/
def specNumOriginalPubs (snap : List (String × List Citation))
    (cutoff : Date) : Nat :=
  (snap.filter (fun p => p.2.any (citationQualifies cutoff))).length

/-- Spec §4.3: `num_citing_pubs` = count of distinct DOIs among all
citations (across all tracked publications) whose normalized date is
≤ cutoff, DOI-less citations excluded. -/
def specNumCitingPubs (snap : List (String × List Citation))
    (cutoff : Date) : Nat :=
  ((snap.flatMap Prod.snd).filterMap
    (fun c => if citationQualifies cutoff c && doiTruthy c.doi
              then c.doi else none)).dedup.length

/-- ASCII lower-casing of one character (all DOI characters are ASCII). -/
def asciiLower (c : Char) : Char :=
  if 65 ≤ c.toNat ∧ c.toNat ≤ 90 then Char.ofNat (c.toNat + 32) else c

/-- ASCII whitespace test. -/
def isWs (c : Char) : Bool :=
  c = ' ' || c = '\t' || c = '\n' || c = '\r'

/-- Spec §4.2: normalized DOI dedup key — case-insensitive, trimmed. -/
def normDoi (s : String) : String :=
  ⟨(((s.data.dropWhile isWs).reverse.dropWhile isWs).reverse).map asciiLower⟩

/-- Invariant of the `seen_dois` dict: keys are pairwise distinct, and
the record stored under a key carries that key as its DOI. -/
def SeenInv (seen : List (String × Citation)) : Prop :=
  (seen.map Prod.fst).Nodup ∧ ∀ p ∈ seen, p.2.doi = some p.1

/-! ### Concrete inputs used by the counterexamples and witnesses -/

/-- C1 failing input: one tracked publication whose only citation is
dated after the cutoff `2020-01-01`. -/
def snapLate : List (String × List Citation) :=
  [("10.1/A", [⟨"T", some "10.2/B", some "2025-01-01", "openalex"⟩])]

/-- C2 failing input: the spec's own scenario after merging — one tracked
publication with citations X (2022-01-01) and Y (2023-01-01). -/
def snapXY : List (String × List Citation) :=
  [("P", [⟨"X", some "10.1/X", some "2022-01-01", "openalex"⟩,
          ⟨"Y", some "10.1/Y", some "2023-01-01", "semanticscholar"⟩])]

/-- C3 failing input: a DOI-less citation dated 2023-01-01 listed before
a DOI-carrying citation dated 2022-01-01. -/
def snapShadow : List (String × List Citation) :=
  [("P", [⟨"A", none, some "2023-01-01", "openalex"⟩,
          ⟨"B", some "10.1/X", some "2022-01-01", "openalex"⟩])]

/-- C4 witness records: one record per provider sharing DOI `10.1/X`
with different dates. -/
def oaX : Citation := ⟨"TA", some "10.1/X", some "2022-01-01", "openalex"⟩

/-- The provider_b counterpart of `oaX`. -/
def ssX : Citation := ⟨"TB", some "10.1/X", some "2022-06-01", "semanticscholar"⟩

/-- C5 failing input: a provider_b-only citation with a DOI. -/
def ssOnly : Citation := ⟨"B", some "10.1/X", some "2022-01-01", "semanticscholar"⟩

/-- C6 counterexample records: same DOI up to ASCII case. -/
def caseUpper : Citation := ⟨"A", some "10.1/X", some "2022-01-01", "openalex"⟩

/-- The lower-case-DOI twin of `caseUpper`. -/
def caseLower : Citation := ⟨"B", some "10.1/x", some "2022-01-01", "openalex"⟩

/-- C7 witness records: DOI-less, same title, different dates. -/
def titleNew : Citation := ⟨"Foo Bar Study", none, some "2023-05-01", "openalex"⟩

/-- The earlier-dated twin of `titleNew` (empty-string DOI). -/
def titleOld : Citation := ⟨"Foo Bar Study", some "", some "2022-01-01", "semanticscholar"⟩

/-- C8 failing input, first record: DOI-less and dateless. -/
def noDate : Citation := ⟨"T", none, none, "openalex"⟩

/-- C8 failing input, second record: same title key, with a date. -/
def withDate : Citation := ⟨"T", none, some "2022-01-01", "semanticscholar"⟩

/-- C9 counterexample: provider_a's DOI-less record of a tie. -/
def tieA : Citation := ⟨"Tie", none, some "2022-01-01", "openalex"⟩

/-- C9 counterexample: provider_b's DOI-less record of the same tie. -/
def tieB : Citation := ⟨"Tie", none, some "2022-01-01", "semanticscholar"⟩

/-- Decidable equality on `Except`, for concrete evaluations of
`mergeCitations`. -/
instance instDecEqExcept {ε α : Type} [DecidableEq ε] [DecidableEq α] :
    DecidableEq (Except ε α) := fun a b =>
  match a, b with
  | .error e1, .error e2 =>
    if h : e1 = e2 then isTrue (congrArg Except.error h)
    else isFalse (fun hc => h (Except.error.inj hc))
  | .error _, .ok _ => isFalse (fun hc => Except.noConfusion hc)
  | .ok _, .error _ => isFalse (fun hc => Except.noConfusion hc)
  | .ok a1, .ok a2 =>
    if h : a1 = a2 then isTrue (congrArg Except.ok h)
    else isFalse (fun hc => h (Except.ok.inj hc))

/-! ## Helper lemmas -/

theorem pubCitingDois_length_le_one (cutoff : Date) (l : List Citation) :
    (pubCitingDois cutoff l).length ≤ 1 := by
  induction l with
  | nil => simp [pubCitingDois]
  | cons c rest ih =>
    simp only [pubCitingDois]
    split
    · exact ih
    · split
      · exact ih
      · split
        · exact ih
        · split
          · split
            · split <;> simp
            · simp
          · exact ih

theorem allCitingDois_acc (cutoff : Date) (snap : List (String × List Citation))
    (acc : List String) :
    snap.foldl (fun acc p => acc ++ pubCitingDois cutoff p.2) acc =
      acc ++ snap.flatMap (fun p => pubCitingDois cutoff p.2) := by
  induction snap generalizing acc with
  | nil => simp
  | cons p rest ih => simp [List.foldl_cons, ih, List.append_assoc]

theorem flatMap_toFinset_card_le (cutoff : Date)
    (snap : List (String × List Citation)) :
    (snap.flatMap (fun p => pubCitingDois cutoff p.2)).toFinset.card ≤
      snap.length := by
  induction snap with
  | nil => simp
  | cons p rest ih =>
    rw [List.flatMap_cons, List.toFinset_append]
    calc ((pubCitingDois cutoff p.2).toFinset ∪ _).card
        ≤ (pubCitingDois cutoff p.2).toFinset.card +
            ((rest.flatMap (fun p => pubCitingDois cutoff p.2)).toFinset).card :=
          Finset.card_union_le _ _
      _ ≤ 1 + rest.length := by
          have h1 := (pubCitingDois cutoff p.2).toFinset_card_le
          have h2 := pubCitingDois_length_le_one cutoff p.2
          omega
      _ = (p :: rest).length := by simp [Nat.add_comm]

/-! ## Claim theorems -/

/-- C1 (code_bug): `filter_citations_by_date` does **not** return the
number of qualifying tracked publications.  On a snapshot whose single
publication has no citation dated on or before the cutoff `2020-01-01`,
the code returns `num_original_pubs = 1` (it returns
`len(citations_output)`; the counter `original_pubs_with_citations` is
never incremented), while the spec-side count of qualifying publications
is `0`. -/
theorem num_original_pubs_ignores_cutoff :
    filterCitationsByDate snapLate ⟨2020, 1, 1⟩ =
      { num_original_pubs := 1, num_citing_pubs := 0 } ∧
    specNumOriginalPubs snapLate ⟨2020, 1, 1⟩ = 0 := by
  constructor <;> decide

/-- C2 (code_bug): on the spec's own scenario — one tracked publication
with citations X (doi `10.1/X`, 2022-01-01) and Y (doi `10.1/Y`,
2023-01-01) and cutoff 2023-06-01 — the code returns
`num_citing_pubs = 1` because the inner loop `break`s at the first
citation dated on or before the cutoff, while the spec-side distinct-DOI
count is `2`. -/
theorem num_citing_pubs_truncated_by_break :
    filterCitationsByDate snapXY ⟨2023, 6, 1⟩ =
      { num_original_pubs := 1, num_citing_pubs := 1 } ∧
    specNumCitingPubs snapXY ⟨2023, 6, 1⟩ = 2 := by
  constructor <;> decide

/-- C3 (code_bug): `num_citing_pubs` is **not** monotone in the cutoff.
On a publication listing a DOI-less citation dated 2023-01-01 before a
DOI-carrying citation dated 2022-01-01, cutoff 2022-06-01 yields
`num_citing_pubs = 1` but the later cutoff 2023-06-01 yields `0`: with
the larger cutoff the loop breaks at the earlier-listed DOI-less
citation and contributes nothing. -/
theorem num_citing_pubs_not_monotone :
    dateLe ⟨2022, 6, 1⟩ ⟨2023, 6, 1⟩ = true ∧
    (filterCitationsByDate snapShadow ⟨2022, 6, 1⟩).num_citing_pubs = 1 ∧
    (filterCitationsByDate snapShadow ⟨2023, 6, 1⟩).num_citing_pubs = 0 := by
  refine ⟨by decide, by decide, by decide⟩

/-- C5 (code_bug): a DOI-carrying citation reported only by provider_b
(`semanticscholar`) is dropped entirely: the dedup inserts a new key only
when the record's source is `'openalex'`, so the merged output is empty
instead of containing the first-seen provider_b record. -/
theorem provider_b_only_doi_citation_dropped :
    mergeCitations [ssOnly] = .ok [] := by decide

/-- C8 (code_bug): the merge does **not** complete on every input.  When
a DOI-less, dateless record holds a title key and a dated record with the
same key arrives, the comparison
`cit.get('publication_date') < existing.get('publication_date')`
compares a `str` against `None` and raises `TypeError`, aborting the
batch (modelled as `Except.error ()`). -/
theorem merge_raises_on_dateless_holder :
    mergeCitations [noDate, withDate] = .error () := by decide

/-- C10 (confirmed, implicit): per tracked publication the inner loop of
`filter_citations_by_date` breaks at the first citation dated on or
before the cutoff, so each publication contributes at most one DOI to
`all_citing_dois` and `num_citing_pubs` never exceeds the number of
tracked-publication entries in the snapshot mapping. -/
theorem num_citing_pubs_le_snapshot_length
    (snap : List (String × List Citation)) (cutoff : Date) :
    (filterCitationsByDate snap cutoff).num_citing_pubs ≤ snap.length := by
  show (allCitingDois cutoff snap).dedup.length ≤ snap.length
  rw [← List.card_toFinset]
  rw [allCitingDois, allCitingDois_acc, List.nil_append]
  exact flatMap_toFinset_card_le cutoff snap

/-- Witness for C10's theorem at a concrete snapshot. -/
theorem num_citing_pubs_le_snapshot_length_witness :
    (filterCitationsByDate snapXY ⟨2023, 6, 1⟩).num_citing_pubs ≤
      snapXY.length :=
  num_citing_pubs_le_snapshot_length snapXY ⟨2023, 6, 1⟩

/-- C4 (confirmed): for one `openalex` record and one `semanticscholar`
record sharing a non-empty DOI with different dates, the merge yields the
single record built from the `openalex` record — its title and
publication date — in **either** input order.  (With `semanticscholar`
first, the `semanticscholar` record is never inserted at all, and the
`openalex` record then takes the key.) -/
theorem source_priority_openalex (a b : Citation) (d : String) (hd : d ≠ "")
    (ha : a.doi = some d) (hb : b.doi = some d)
    (hsa : a.source = "openalex") (hsb : b.source = "semanticscholar")
    (hdate : a.publication_date ≠ b.publication_date) :
    mergeCitations [a, b] =
      .ok [⟨a.title, some d, a.publication_date, "openalex"⟩] ∧
    mergeCitations [b, a] =
      .ok [⟨a.title, some d, a.publication_date, "openalex"⟩] := by
  obtain ⟨ta, da, pa, sa⟩ := a
  obtain ⟨tb, db, pb, sb⟩ := b
  simp only [Citation.doi, Citation.source, Citation.publication_date,
    Citation.title] at *
  subst ha hb hsa hsb
  constructor <;>
    simp [mergeCitations, dedupByDoi, dedupTitleOnly, doiStep, titleStep,
      doiMissing, appendStep, List.lookup, List.foldlM, hd, Bind.bind,
      Except.bind, Pure.pure, Except.pure]

/-- Witness for C4's theorem: `oaX` and `ssX` share DOI `10.1/X` with
different dates. -/
theorem source_priority_openalex_witness :
    mergeCitations [oaX, ssX] =
      .ok [⟨oaX.title, some "10.1/X", oaX.publication_date, "openalex"⟩] ∧
    mergeCitations [ssX, oaX] =
      .ok [⟨oaX.title, some "10.1/X", oaX.publication_date, "openalex"⟩] :=
  source_priority_openalex oaX ssX "10.1/X" (by decide) rfl rfl rfl rfl
    (by decide)

/-- C7 (confirmed): two DOI-less records with the same non-empty
50-character title key and two (differing) dates merge to exactly one
output record, the one with the smaller date string (string comparison,
which on the providers' zero-padded `YYYY-MM-DD` dates is chronological
order); and a DOI-less, dateless record arriving first becomes the
initial holder of its title key. -/
theorem title_key_dedup_keeps_earlier (c1 c2 : Citation)
    (h1 : doiMissing c1 = true) (h2 : doiMissing c2 = true)
    (hk : titleKey c1 = titleKey c2) (hk1 : titleKey c1 ≠ "")
    (d1 d2 : String)
    (hd1 : c1.publication_date = some d1) (hd2 : c2.publication_date = some d2)
    (hne : d1 ≠ d2) :
    mergeCitations [c1, c2] = .ok [if strLt d2 d1 then c2 else c1] ∧
    (if strLt d2 d1 then c2 else c1).publication_date =
      some (if strLt d2 d1 then d2 else d1) ∧
    (∀ c : Citation, doiMissing c = true → titleKey c ≠ "" →
      c.publication_date = none → mergeCitations [c] = .ok [c]) := by
  refine ⟨?_, ?_, ?_⟩
  · obtain ⟨t1, o1, p1, s1⟩ := c1
    obtain ⟨t2, o2, p2, s2⟩ := c2
    simp only [doiMissing, titleKey, Citation.publication_date, Citation.doi,
      Citation.title] at *
    subst hd1 hd2
    rw [hk] at hk1
    rcases o1 with _ | s1' <;> rcases o2 with _ | s2' <;>
      [skip; (rw [beq_iff_eq] at h2; subst h2);
       (rw [beq_iff_eq] at h1; subst h1);
       (rw [beq_iff_eq] at h1; rw [beq_iff_eq] at h2; subst h1; subst h2)] <;>
    cases hcmp : strLt d2 d1 <;>
      simp [mergeCitations, dedupByDoi, dedupTitleOnly, doiStep, titleStep,
        doiMissing, appendStep, titleKey, List.lookup, List.foldlM, Bind.bind,
        Except.bind, Pure.pure, Except.pure, hk, hk1, hcmp,
        List.erase_cons_head]
  · cases hcmp : strLt d2 d1 <;> simp [hcmp, hd1, hd2]
  · intro c hc hkc hdc
    obtain ⟨t, o, p, s⟩ := c
    simp only [doiMissing, titleKey, Citation.publication_date, Citation.doi,
      Citation.title] at *
    subst hdc
    rcases o with _ | s' <;> [skip; (rw [beq_iff_eq] at hc; subst hc)] <;>
      simp [mergeCitations, dedupByDoi, dedupTitleOnly, doiStep, titleStep,
        doiMissing, appendStep, titleKey, List.lookup, List.foldlM, Bind.bind,
        Except.bind, Pure.pure, Except.pure, hkc]

/-- Witness for C7's theorem: `titleNew` (2023-05-01) and `titleOld`
(2022-01-01) share the title key `Foo Bar Study`. -/
theorem title_key_dedup_keeps_earlier_witness :
    mergeCitations [titleNew, titleOld] =
      .ok [if strLt "2022-01-01" "2023-05-01" then titleOld else titleNew] ∧
    (if strLt "2022-01-01" "2023-05-01" then titleOld
     else titleNew).publication_date =
      some (if strLt "2022-01-01" "2023-05-01" then "2022-01-01"
            else "2023-05-01") ∧
    (∀ c : Citation, doiMissing c = true → titleKey c ≠ "" →
      c.publication_date = none → mergeCitations [c] = .ok [c]) :=
  title_key_dedup_keeps_earlier titleNew titleOld (by decide) (by decide)
    (by decide) (by decide) "2023-05-01" "2022-01-01" rfl rfl (by decide)

/-- A `semanticscholar` record is a complete no-op for the DOI-keyed
dedup: it is never inserted (the insert branch requires source
`'openalex'`) and never triggers the update (whose first conjunct
requires source `'openalex'`). -/
theorem doiStep_ss_noop (seen : List (String × Citation)) (cit : Citation)
    (h : cit.source = "semanticscholar") : doiStep seen cit = seen := by
  rcases hdoi : cit.doi with _ | d
  · simp [doiStep, hdoi]
  · simp only [doiStep, hdoi, h]
    split
    · rfl
    · split <;> simp

theorem foldl_doiStep_ss (B : List Citation)
    (hB : ∀ c ∈ B, c.source = "semanticscholar") :
    ∀ seen, B.foldl doiStep seen = seen := by
  induction B with
  | nil => intro seen; rfl
  | cons b rest ih =>
    intro seen
    rw [List.foldl_cons, doiStep_ss_noop seen b (hB b (by simp))]
    exact ih (fun c hc => hB c (by simp [hc])) seen

theorem titleStep_doi_noop (acc : List Citation) (cit : Citation)
    (h : doiMissing cit = false) : titleStep acc cit = .ok acc := by
  simp [titleStep, h]

theorem foldlM_titleStep_doi (l : List Citation)
    (hl : ∀ c ∈ l, doiMissing c = false) :
    ∀ acc, l.foldlM titleStep acc = .ok acc := by
  induction l with
  | nil => intro acc; rfl
  | cons c rest ih =>
    intro acc
    simp only [List.foldlM, titleStep_doi_noop acc c (hl c (by simp))]
    simpa using ih (fun x hx => hl x (by simp [hx])) acc

/-- C9 (corrected) — counterexample to the claim as stated: two DOI-less
records of the same citing work with **equal** dates (a tie).  Whichever
comes first wins the title key, so the two concatenation orders yield
different merged content (`tieA` vs `tieB`). -/
theorem merge_not_order_independent :
    mergeCitations ([tieA] ++ [tieB]) = .ok [tieA] ∧
    mergeCitations ([tieB] ++ [tieA]) = .ok [tieB] ∧
    tieA ≠ tieB := by
  refine ⟨by decide, by decide, by decide⟩

/-- C9 (corrected) — amended claim: when every record in the
concatenated input carries a non-empty DOI and the provider_b list's
records all have source `'semanticscholar'`, merging `A ++ B` and
`B ++ A` yields identical output (provider_b records never affect the
DOI-keyed dict at all); re-running on identical input is deterministic
by construction.  Order-independence fails only for DOI-less records
(ties and the dateless-holder `TypeError`). -/
theorem merge_order_indep_of_doi (A B : List Citation)
    (hB : ∀ c ∈ B, c.source = "semanticscholar")
    (hdoi : ∀ c ∈ A ++ B, doiMissing c = false) :
    mergeCitations (A ++ B) = mergeCitations (B ++ A) := by
  have h1 : dedupTitleOnly (A ++ B) = .ok [] :=
    foldlM_titleStep_doi _ hdoi []
  have h2 : dedupTitleOnly (B ++ A) = .ok [] :=
    foldlM_titleStep_doi _
      (fun c hc => hdoi c (by rw [List.mem_append] at *; tauto)) []
  have h3 : dedupByDoi (A ++ B) = A.foldl doiStep [] := by
    rw [dedupByDoi, List.foldl_append]
    exact foldl_doiStep_ss B hB _
  have h4 : dedupByDoi (B ++ A) = A.foldl doiStep [] := by
    rw [dedupByDoi, List.foldl_append, foldl_doiStep_ss B hB []]
  simp [mergeCitations, h1, h2, h3, h4]

/-- Witness for C9's amended theorem: the spec's scenario lists
`[oaX]` from provider_a and `[ssX]` from provider_b. -/
theorem merge_order_indep_of_doi_witness :
    mergeCitations ([oaX] ++ [ssX]) = mergeCitations ([ssX] ++ [oaX]) :=
  merge_order_indep_of_doi [oaX] [ssX] (by decide) (by decide)

theorem lookup_eq_none_forall {seen : List (String × Citation)} {d : String}
    (h : seen.lookup d = none) : ∀ p ∈ seen, p.1 ≠ d := by
  induction seen with
  | nil => simp
  | cons q rest ih =>
    obtain ⟨k, v⟩ := q
    intro p hp
    rw [List.lookup] at h
    cases hdk : d == k with
    | true => rw [hdk] at h; exact absurd h (by simp)
    | false =>
      rw [hdk] at h
      rcases List.mem_cons.1 hp with rfl | hmem
      · exact fun hc => (beq_eq_false_iff_ne.1 hdk) (hc ▸ rfl)
      · exact ih h p hmem

theorem lookup_some_doi {seen : List (String × Citation)} {d : String}
    {v : Citation} (hinv : ∀ p ∈ seen, p.2.doi = some p.1)
    (h : seen.lookup d = some v) : v.doi = some d := by
  induction seen with
  | nil => simp at h
  | cons q rest ih =>
    obtain ⟨k, w⟩ := q
    rw [List.lookup] at h
    cases hdk : d == k with
    | true =>
      rw [hdk] at h
      have hk : d = k := beq_iff_eq.1 hdk
      have := hinv (k, w) (by simp)
      rw [Option.some.inj h] at this
      rw [this, hk]
    | false =>
      rw [hdk] at h
      exact ih (fun p hp => hinv p (by simp [hp])) h

theorem updateKey_map_fst (seen : List (String × Citation)) (k : String)
    (v : Citation) : (updateKey seen k v).map Prod.fst = seen.map Prod.fst := by
  rw [updateKey, List.map_map]
  apply List.map_congr_left
  intro p _
  by_cases h : (p.1 == k) = true <;> simp [Function.comp, h]

theorem updateKey_inv {seen : List (String × Citation)} {k : String}
    {v : Citation} (hinv : ∀ p ∈ seen, p.2.doi = some p.1)
    (hv : v.doi = some k) : ∀ p ∈ updateKey seen k v, p.2.doi = some p.1 := by
  intro p hp
  rw [updateKey] at hp
  obtain ⟨q, hq, rfl⟩ := List.mem_map.1 hp
  by_cases h : (q.1 == k) = true
  · simp only [h, if_pos]
    rw [hv, beq_iff_eq.1 h]
  · simp only [h, if_neg, Bool.false_eq_true, not_false_iff]
    exact hinv q hq

theorem SeenInv_append {seen : List (String × Citation)} {d : String}
    {v : Citation} (h : SeenInv seen) (hl : seen.lookup d = none)
    (hv : v.doi = some d) : SeenInv (seen ++ [(d, v)]) := by
  obtain ⟨hnd, hinv⟩ := h
  constructor
  · rw [List.map_append, List.nodup_append]
    refine ⟨hnd, by simp, ?_⟩
    intro x hx hy
    simp only [List.map_cons, List.map_nil, List.mem_singleton] at hy
    subst hy
    obtain ⟨p, hp, rfl⟩ := List.mem_map.1 hx
    exact lookup_eq_none_forall hl p hp rfl
  · intro p hp
    rcases List.mem_append.1 hp with hmem | hmem
    · exact hinv p hmem
    · simp only [List.mem_singleton] at hmem
      subst hmem
      exact hv

theorem SeenInv_updateKey {seen : List (String × Citation)} {d : String}
    {v : Citation} (h : SeenInv seen) (hv : v.doi = some d) :
    SeenInv (updateKey seen d v) :=
  ⟨by rw [updateKey_map_fst]; exact h.1, updateKey_inv h.2 hv⟩

theorem doiStep_SeenInv {seen : List (String × Citation)} {cit : Citation}
    (h : SeenInv seen) : SeenInv (doiStep seen cit) := by
  rcases hdoi : cit.doi with _ | d
  · simpa [doiStep, hdoi] using h
  · by_cases hde : d = ""
    · simpa [doiStep, hdoi, hde] using h
    · simp only [doiStep, hdoi, if_neg hde]
      have h1 : SeenInv (if (seen.lookup d).isNone = true then
          if cit.source = "openalex" then
            seen ++ [(d, ⟨cit.title, some d, cit.publication_date, cit.source⟩)]
          else seen
        else seen) := by
        split
        · split
          · exact SeenInv_append h (by
              rename_i hn _
              exact Option.isNone_iff_eq_none.1 hn) rfl
          · exact h
        · exact h
      split
      · exact h1
      · next existing heq =>
        split
        · have hvd := lookup_some_doi h1.2 heq
          exact SeenInv_updateKey h1 hvd
        · exact h1

theorem foldl_doiStep_SeenInv (l : List Citation) :
    ∀ seen, SeenInv seen → SeenInv (l.foldl doiStep seen) := by
  induction l with
  | nil => intro seen h; exact h
  | cons c rest ih =>
    intro seen h
    rw [List.foldl_cons]
    exact ih _ (doiStep_SeenInv h)

theorem dedupByDoi_SeenInv (cits : List Citation) :
    SeenInv (dedupByDoi cits) :=
  foldl_doiStep_SeenInv cits [] ⟨by simp, by simp⟩

theorem values_filter_doi_le_one {seen : List (String × Citation)}
    (h : SeenInv seen) (d : String) :
    ((seen.map Prod.snd).filter (fun c => c.doi == some d)).length ≤ 1 := by
  induction seen with
  | nil => simp
  | cons q rest ih =>
    obtain ⟨hnd, hinv⟩ := h
    rw [List.map_cons, List.filter_cons]
    by_cases hq : (q.2.doi == some d) = true
    · have hq1 : q.1 = d := by
        have hd := hinv q (by simp)
        rw [hd] at hq
        exact Option.some.inj (beq_iff_eq.1 hq)
      have hrest : (rest.map Prod.snd).filter (fun c => c.doi == some d) = [] := by
        rw [List.filter_eq_nil_iff]
        intro c hc
        obtain ⟨p, hp, rfl⟩ := List.mem_map.1 hc
        rw [hinv p (by simp [hp])]
        intro hc2
        have hp1 : p.1 = d := Option.some.inj (beq_iff_eq.1 hc2)
        rw [List.map_cons, List.nodup_cons] at hnd
        exact hnd.1 (by
          rw [hq1, ← hp1]
          exact List.mem_map.2 ⟨p, hp, rfl⟩)
      simp [hq, hrest]
    · simp only [hq, if_neg, Bool.false_eq_true, not_false_iff]
      exact ih ⟨(List.nodup_cons.1 (by rwa [List.map_cons] at hnd)).2,
        fun p hp => hinv p (by simp [hp])⟩

theorem titleStep_members {acc : List Citation} {cit : Citation}
    {acc' : List Citation} (hok : titleStep acc cit = .ok acc')
    (h : ∀ c ∈ acc, doiMissing c = true) : ∀ c ∈ acc', doiMissing c = true := by
  by_cases hm : doiMissing cit = true
  · simp only [titleStep, hm, if_pos] at hok
    split at hok
    · exact (Except.ok.inj hok) ▸ h
    · split at hok
      · have := Except.ok.inj hok
        subst this
        intro c hc
        rcases List.mem_append.1 hc with hmem | hmem
        · exact h c hmem
        · simp only [List.mem_singleton] at hmem
          subst hmem
          exact hm
      · split at hok
        · exact (Except.ok.inj hok) ▸ h
        · split at hok
          · exact absurd hok (by simp)
          · split at hok
            · have := Except.ok.inj hok
              subst this
              intro c hc
              rcases List.mem_append.1 hc with hmem | hmem
              · exact h c (List.mem_of_mem_erase hmem)
              · simp only [List.mem_singleton] at hmem
                subst hmem
                exact hm
            · exact (Except.ok.inj hok) ▸ h
  · rw [titleStep_doi_noop acc cit (by simpa using hm)] at hok
    exact (Except.ok.inj hok) ▸ h

theorem foldlM_titleStep_members :
    ∀ (l acc res : List Citation), (∀ c ∈ acc, doiMissing c = true) →
      l.foldlM titleStep acc = .ok res → ∀ c ∈ res, doiMissing c = true := by
  intro l
  induction l with
  | nil =>
    intro acc res h hok
    simp only [List.foldlM] at hok
    exact (Except.ok.inj hok) ▸ h
  | cons c rest ih =>
    intro acc res h hok
    simp only [List.foldlM] at hok
    cases h1 : titleStep acc c with
    | error e =>
      rw [h1] at hok
      exact absurd hok (by simp [Bind.bind, Except.bind])
    | ok acc1 =>
      rw [h1] at hok
      simp only [Bind.bind, Except.bind] at hok
      exact ih acc1 res (titleStep_members h1 h) hok

theorem dedupTitleOnly_members {l res : List Citation}
    (hok : dedupTitleOnly l = .ok res) : ∀ c ∈ res, doiMissing c = true :=
  foldlM_titleStep_members l [] res (by simp) hok

theorem foldl_appendStep_filter (p : Citation → Bool) :
    ∀ (ts u : List Citation), (∀ t ∈ ts, p t = false) →
      (ts.foldl appendStep u).filter p = u.filter p := by
  intro ts
  induction ts with
  | nil => intro u _; rfl
  | cons t rest ih =>
    intro u h
    rw [List.foldl_cons, ih _ (fun x hx => h x (by simp [hx]))]
    rw [appendStep]
    split
    · rfl
    · rw [List.filter_append]
      simp [h t (by simp)]

theorem doiMissing_beq_false {c : Citation} {d : String}
    (hm : doiMissing c = true) (hd : d ≠ "") : (c.doi == some d) = false := by
  rcases hc : c.doi with _ | s
  · simp
  · rw [doiMissing, hc] at hm
    have : s = "" := beq_iff_eq.1 hm
    subst this
    simp [beq_eq_false_iff_ne, Ne.symm hd]

/-- C6 (corrected) — counterexample to the claim as stated: the code
keys `seen_dois` by the **raw** DOI string, with no case folding or
trimming.  Two `openalex` records whose DOIs differ only in ASCII case —
equal under the spec's normalization — survive as two output records. -/
theorem merge_ignores_doi_case :
    mergeCitations [caseUpper, caseLower] = .ok [caseUpper, caseLower] ∧
    normDoi "10.1/X" = normDoi "10.1/x" ∧
    caseUpper.doi = some "10.1/X" ∧ caseLower.doi = some "10.1/x" ∧
    caseUpper ≠ caseLower := by
  refine ⟨by decide, by decide, rfl, rfl, by decide⟩

/-- C6 (corrected) — amended claim: the dedup key is the raw DOI string.
For every input on which the merge completes and every non-empty DOI
string `d`, at most one output record carries DOI `d`: records with
byte-identical non-empty DOIs merge into at most one output record, and
no two output records share the same raw non-empty DOI. -/
theorem merge_at_most_one_per_raw_doi (cits out : List Citation) (d : String)
    (hd : d ≠ "") (hok : mergeCitations cits = .ok out) :
    (out.filter (fun c => c.doi == some d)).length ≤ 1 := by
  simp only [mergeCitations] at hok
  cases hT : dedupTitleOnly cits with
  | error e => rw [hT] at hok; exact absurd hok (by simp)
  | ok titleOnly =>
    rw [hT] at hok
    have hout : out =
        titleOnly.foldl appendStep ((dedupByDoi cits).map Prod.snd) :=
      (Except.ok.inj hok).symm
    rw [hout, foldl_appendStep_filter _ titleOnly _
      (fun t ht => doiMissing_beq_false (dedupTitleOnly_members hT t ht) hd)]
    exact values_filter_doi_le_one (dedupByDoi_SeenInv cits) d

/-- Witness for C6's amended theorem: two records with byte-identical
DOI `10.1/X` merge to one output record. -/
theorem merge_at_most_one_per_raw_doi_witness :
    ((([⟨"TA", some "10.1/X", some "2022-01-01", "openalex"⟩] :
        List Citation)).filter
      (fun c => c.doi == some "10.1/X")).length ≤ 1 :=
  merge_at_most_one_per_raw_doi [oaX, ssX]
    [⟨"TA", some "10.1/X", some "2022-01-01", "openalex"⟩] "10.1/X"
    (by decide) (by decide)

end SuccessMetrics
